import Mathlib

/-!
Verification of the aero-arc-registry liveness and placement engine.

The development shallowly embeds the Go sources:
  internal/registry/backend/memory/backend.go  (in-memory reference backend)
  internal/registry/registry.go                (facade and TTL sweeper)
Machine integers (time.Time after Unix conversion, time.Duration) are
modelled as Int; Go contexts are modelled by a Bool that records whether
the context is already cancelled; Go maps are modelled as association
lists keyed by the entity ID.
-/

/-- Error kinds of the registry error taxonomy (errors.go wraps
ErrNotFound; context errors map to the canceled kind). -/
inductive Err where
  | notFound
  | canceled
  | backendFailure
  deriving DecidableEq, Repr

/-- Relay from internal/registry types: ID, Address, GRPCPort, LastSeen. -/
structure Relay where
  ID : String
  Address : String
  GRPCPort : Int
  LastSeen : Int
  deriving DecidableEq, Repr

/-- Agent from internal/registry types: ID, LastHeartbeat. -/
structure Agent where
  ID : String
  LastHeartbeat : Int
  deriving DecidableEq, Repr

/-- AgentPlacement from internal/registry types. -/
structure AgentPlacement where
  AgentID : String
  RelayID : String
  UpdatedAt : Int
  deriving DecidableEq, Repr

/-- Lookup in an association map (a Go map read m[k]). -/
def mget (m : List (String × α)) (k : String) : Option α :=
  match m with
  | [] => none
  | kv :: rest => if kv.1 == k then some kv.2 else mget rest k

/-- Write to an association map (a Go map write m[k] = v): replaces the
first binding of k, or appends a new one. -/
def mset (m : List (String × α)) (k : String) (v : α) : List (String × α) :=
  match m with
  | [] => [(k, v)]
  | kv :: rest => if kv.1 == k then (k, v) :: rest else kv :: mset rest k v

namespace Memory

/-- The in-memory backend state: the three maps of memory.Backend
(relays, agents, placements), entry indirection flattened. -/
structure Backend where
  relays : List (String × Relay)
  agents : List (String × Agent)
  placements : List (String × AgentPlacement)
  deriving DecidableEq, Repr

/-- Backend.RegisterRelay from memory/backend.go: cancellation check at
entry; idempotent field update when the ID exists, insert otherwise
(the double-checked insert collapses in a sequential embedding). -/
def RegisterRelay (ctx : Bool) (b : Backend) (relay : Relay) (t : Int) :
    Backend × Option Err :=
  if ctx then (b, some Err.canceled)
  else
    let updated : Relay :=
      { ID := relay.ID, Address := relay.Address,
        GRPCPort := relay.GRPCPort, LastSeen := t }
    match mget b.relays relay.ID with
    | some _ =>
      ({ b with relays := mset b.relays relay.ID updated }, none)
    | none =>
      ({ b with relays := mset b.relays relay.ID updated }, none)

/-- Backend.HeartbeatRelay from memory/backend.go: NotFound when the ID
is unknown; otherwise LastSeen is updated first and the cancellation
handle is checked only before returning. -/
def HeartbeatRelay (ctx : Bool) (b : Backend) (relayID : String) (t : Int) :
    Backend × Option Err :=
  match mget b.relays relayID with
  | none => (b, some Err.notFound)
  | some r =>
    let r1 : Relay := { r with LastSeen := t }
    let b1 := { b with relays := mset b.relays relayID r1 }
    if ctx then (b1, some Err.canceled) else (b1, none)

/-- Backend.ListRelays from memory/backend.go: cancellation check at
entry, then a copied snapshot of the relay values. -/
def ListRelays (ctx : Bool) (b : Backend) :
    Backend × Except Err (List Relay) :=
  if ctx then (b, Except.error Err.canceled)
  else (b, Except.ok (b.relays.map Prod.snd))

/-- Backend.RemoveRelay from memory/backend.go: cancellation check at
entry; NotFound when absent; otherwise deletes the relay and, scanning
the placements, every placement whose RelayID matches together with the
corresponding agent entry. -/
def RemoveRelay (ctx : Bool) (b : Backend) (relayID : String) :
    Backend × Option Err :=
  if ctx then (b, some Err.canceled)
  else if (mget b.relays relayID).isNone then (b, some Err.notFound)
  else
    ({ relays := b.relays.filter (fun kv => !(kv.1 == relayID)),
       agents := b.agents.filter (fun kv =>
         !(b.placements.any (fun pkv => pkv.1 == kv.1 && pkv.2.RelayID == relayID))),
       placements := b.placements.filter (fun kv => !(kv.2.RelayID == relayID)) }, none)

/-- Backend.RegisterAgent from memory/backend.go: cancellation check at
entry; NotFound when the relay is unregistered; otherwise upsert the
agent entry with LastHeartbeat := now and unconditionally rewrite the
placement to (agent.ID, relayID, now). -/
def RegisterAgent (ctx : Bool) (b : Backend) (agent : Agent) (relayID : String)
    (t : Int) : Backend × Option Err :=
  if ctx then (b, some Err.canceled)
  else if (mget b.relays relayID).isNone then (b, some Err.notFound)
  else
    let pl : AgentPlacement :=
      { AgentID := agent.ID, RelayID := relayID, UpdatedAt := t }
    match mget b.agents agent.ID with
    | some a =>
      let a1 : Agent := { a with LastHeartbeat := t }
      ({ b with
          agents := mset b.agents agent.ID a1,
          placements := mset b.placements agent.ID pl }, none)
    | none =>
      let a1 : Agent := { ID := agent.ID, LastHeartbeat := t }
      ({ b with
          agents := mset b.agents agent.ID a1,
          placements := mset b.placements agent.ID pl }, none)

/-- Backend.HeartbeatAgent from memory/backend.go: NotFound when the ID
is unknown; otherwise LastHeartbeat is updated (first time.Now call),
then the placement UpdatedAt when the placement exists (second time.Now
call), and the cancellation handle is checked only before returning. -/
def HeartbeatAgent (ctx : Bool) (b : Backend) (agentID : String) (t1 t2 : Int) :
    Backend × Option Err :=
  match mget b.agents agentID with
  | none => (b, some Err.notFound)
  | some a =>
    let a1 : Agent := { a with LastHeartbeat := t1 }
    let b1 := { b with agents := mset b.agents agentID a1 }
    let b2 :=
      match mget b1.placements agentID with
      | some p =>
        let p1 : AgentPlacement := { p with UpdatedAt := t2 }
        { b1 with placements := mset b1.placements agentID p1 }
      | none => b1
    if ctx then (b2, some Err.canceled) else (b2, none)

/-- Backend.GetAgentPlacement from memory/backend.go: cancellation check
at entry; NotFound when no placement; otherwise a copy of the
placement. -/
def GetAgentPlacement (ctx : Bool) (b : Backend) (agentID : String) :
    Backend × Except Err AgentPlacement :=
  if ctx then (b, Except.error Err.canceled)
  else
    match mget b.placements agentID with
    | none => (b, Except.error Err.notFound)
    | some p => (b, Except.ok p)

/-- Backend.ListAgents from memory/backend.go: cancellation check at
entry, then a copied snapshot of the agent values. -/
def ListAgents (ctx : Bool) (b : Backend) :
    Backend × Except Err (List Agent) :=
  if ctx then (b, Except.error Err.canceled)
  else (b, Except.ok (b.agents.map Prod.snd))

/-- Modelled from the spec: the memory backend implementation of
ListRelayAgents is not among the provided sources (only the Backend
interface and its callers are). Spec 4.2 fixes it: derive the agents
currently placed on the relay from the placement map by scanning entries
with matching RelayID; cancellation fails with Canceled. -/
def ListRelayAgents (ctx : Bool) (b : Backend) (relayID : String) :
    Backend × Except Err (List Agent) :=
  if ctx then (b, Except.error Err.canceled)
  else
    (b, Except.ok ((b.placements.filter (fun kv => kv.2.RelayID == relayID)).filterMap
      (fun kv => mget b.agents kv.1)))

/-- Modelled from the spec: the memory backend implementation of
RemoveAgents is not among the provided sources (only the Backend
interface and its callers are). Spec 4.1 and 9 fix it: a best-effort
batch delete that removes each present agent together with its
placement, silently ignores absent IDs, and fails only with Canceled. -/
def RemoveAgents (ctx : Bool) (b : Backend) (agentIDs : List String) :
    Backend × Option Err :=
  if ctx then (b, some Err.canceled)
  else
    ({ b with
        agents := b.agents.filter (fun kv => !(agentIDs.contains kv.1)),
        placements := b.placements.filter (fun kv => !(agentIDs.contains kv.1)) }, none)

end Memory

example :
    (Memory.HeartbeatRelay true
      { relays := [("r", { ID := "r", Address := "a", GRPCPort := 1, LastSeen := 0 })],
        agents := [], placements := [] } "r" 5).2 = some Err.canceled := by decide

example :
    (Memory.HeartbeatRelay true
      { relays := [("r", { ID := "r", Address := "a", GRPCPort := 1, LastSeen := 0 })],
        agents := [], placements := [] } "r" 5).1.relays
    = [("r", { ID := "r", Address := "a", GRPCPort := 1, LastSeen := 5 })] := by decide

/-- A backend call issued by the TTL sweeper, as logged for ordering
properties (mirrors the call log of the ttlCleanupBackend test double). -/
inductive Call where
  | listRelays
  | listAgents
  | listRelayAgents (relayID : String)
  | getAgentPlacement (agentID : String)
  | removeAgents (agentIDs : List String)
  | removeRelay (relayID : String)
  deriving DecidableEq, Repr

/-- The Backend contract consumed by the registry facade (the interface
of internal/registry): each operation transforms an abstract backend
world W and returns a result; time.Now is drawn from the same world so
that concurrent mutation between calls is expressible. -/
structure BackendOps (W : Type) where
  listRelays : W → W × Except Err (List Relay)
  listAgents : W → W × Except Err (List Agent)
  listRelayAgents : W → String → W × Except Err (List Agent)
  getAgentPlacement : W → String → W × Except Err AgentPlacement
  removeAgents : W → List String → W × Option Err
  removeRelay : W → String → W × Option Err
  now : W → W × Int

/-- Registry.isRelayStillStale from registry.go: re-read the relays and
confirm the staleness of the first relay with matching ID; a relay no
longer present is reported not stale. -/
def isRelayStillStale (B : BackendOps W) (relayTTL : Int) (w : W)
    (relayID : String) (t : Int) : W × List Call × Except Err Bool :=
  match B.listRelays w with
  | (w1, Except.error e) => (w1, [Call.listRelays], Except.error e)
  | (w1, Except.ok relays) =>
    match relays.find? (fun relay => relay.ID == relayID) with
    | some relay =>
      (w1, [Call.listRelays], Except.ok (decide (relayTTL ≤ t - relay.LastSeen)))
    | none => (w1, [Call.listRelays], Except.ok false)

/-- Registry.filterStillStaleAgents from registry.go: re-snapshot the
agents and keep the candidates whose LastHeartbeat is still past the
agent TTL. -/
def filterStillStaleAgents (B : BackendOps W) (agentTTL : Int) (w : W)
    (candidateIDs : List String) (t : Int) : W × List Call × Except Err (List String) :=
  if candidateIDs.isEmpty then (w, [], Except.ok [])
  else
    match B.listAgents w with
    | (w1, Except.error e) => (w1, [Call.listAgents], Except.error e)
    | (w1, Except.ok agents) =>
      (w1, [Call.listAgents], Except.ok ((agents.filter (fun agent =>
        candidateIDs.contains agent.ID
          && decide (agentTTL ≤ t - agent.LastHeartbeat))).map Agent.ID))

/-- The per-candidate loop of Registry.filterAgentsStillPlacedOnRelay:
look each placement up; skip on NotFound, record other errors, keep the
agents whose placement RelayID still matches. -/
def placedLoop (B : BackendOps W) (relayID : String) :
    W → List String → W × List Call × List String × List Err
  | w, [] => (w, [], [], [])
  | w, agentID :: rest =>
    match B.getAgentPlacement w agentID with
    | (w1, Except.error e) =>
      match placedLoop B relayID w1 rest with
      | (w2, tr, keep, es) =>
        (w2, Call.getAgentPlacement agentID :: tr, keep,
          if e = Err.notFound then es else e :: es)
    | (w1, Except.ok p) =>
      match placedLoop B relayID w1 rest with
      | (w2, tr, keep, es) =>
        (w2, Call.getAgentPlacement agentID :: tr,
          if p.RelayID == relayID then agentID :: keep else keep, es)

/-- Registry.filterAgentsStillPlacedOnRelay from registry.go. -/
def filterAgentsStillPlacedOnRelay (B : BackendOps W) (w : W) (relayID : String)
    (candidateIDs : List String) : W × List Call × List String × List Err :=
  if candidateIDs.isEmpty then (w, [], [], [])
  else placedLoop B relayID w candidateIDs

/-- Registry.removeRelayAgents from registry.go: list the relay agents,
filter to those still placed on the relay, then RemoveAgents on the
nonempty filtered set; returns the removed count and the error list
(empty list standing for a nil error). -/
def removeRelayAgents (B : BackendOps W) (w : W) (relayID : String) :
    W × List Call × Nat × List Err :=
  match B.listRelayAgents w relayID with
  | (w1, Except.error e) => (w1, [Call.listRelayAgents relayID], 0, [e])
  | (w1, Except.ok agents) =>
    let agentIDs := agents.map Agent.ID
    if agentIDs.isEmpty then (w1, [Call.listRelayAgents relayID], 0, [])
    else
      match filterAgentsStillPlacedOnRelay B w1 relayID agentIDs with
      | (w2, tr, filtered, es) =>
        if !es.isEmpty then (w2, Call.listRelayAgents relayID :: tr, 0, es)
        else if filtered.isEmpty then (w2, Call.listRelayAgents relayID :: tr, 0, [])
        else
          match B.removeAgents w2 filtered with
          | (w3, some e) =>
            (w3, Call.listRelayAgents relayID :: tr ++ [Call.removeAgents filtered], 0, [e])
          | (w3, none) =>
            (w3, Call.listRelayAgents relayID :: tr ++ [Call.removeAgents filtered],
              filtered.length, [])

/-- The body of the relay loop inside Registry.runTTLCleanup, for one
snapshot relay: the stale-confirm branch with cascade, or the
fresh-relay agent sweep; returns the world, the calls issued, the errors
recorded and the removed relay and agent counters for this iteration. -/
def relayStep (B : BackendOps W) (relayTTL agentTTL nowT : Int) (w : W)
    (relay : Relay) : W × List Call × List Err × Nat × Nat :=
  if relayTTL ≤ nowT - relay.LastSeen then
    match B.now w with
    | (w1, t1) =>
      match isRelayStillStale B relayTTL w1 relay.ID t1 with
      | (w2, tr1, Except.error e) => (w2, tr1, [e], 0, 0)
      | (w2, tr1, Except.ok false) => (w2, tr1, [], 0, 0)
      | (w2, tr1, Except.ok true) =>
        match removeRelayAgents B w2 relay.ID with
        | (w3, tr2, removed, es2) =>
          match B.removeRelay w3 relay.ID with
          | (w4, some e) =>
            (w4, tr1 ++ tr2 ++ [Call.removeRelay relay.ID], es2 ++ [e], 0, removed)
          | (w4, none) =>
            (w4, tr1 ++ tr2 ++ [Call.removeRelay relay.ID], es2, 1, removed)
  else
    match B.listRelayAgents w relay.ID with
    | (w1, Except.error e) => (w1, [Call.listRelayAgents relay.ID], [e], 0, 0)
    | (w1, Except.ok relayAgents) =>
      let agentIDs := (relayAgents.filter (fun agent =>
        decide (agentTTL ≤ nowT - agent.LastHeartbeat))).map Agent.ID
      if agentIDs.isEmpty then (w1, [Call.listRelayAgents relay.ID], [], 0, 0)
      else
        match B.now w1 with
        | (w2, t2) =>
          match filterStillStaleAgents B agentTTL w2 agentIDs t2 with
          | (w3, tr2, Except.error e) =>
            (w3, Call.listRelayAgents relay.ID :: tr2, [e], 0, 0)
          | (w3, tr2, Except.ok filtered) =>
            if filtered.isEmpty then (w3, Call.listRelayAgents relay.ID :: tr2, [], 0, 0)
            else
              match B.removeAgents w3 filtered with
              | (w4, some e) =>
                (w4, Call.listRelayAgents relay.ID :: tr2 ++ [Call.removeAgents filtered],
                  [e], 0, 0)
              | (w4, none) =>
                (w4, Call.listRelayAgents relay.ID :: tr2 ++ [Call.removeAgents filtered],
                  [], 0, filtered.length)

/-- Accumulated state of one cleanup pass: backend world, call log,
recorded errors, and the two removal counters. -/
structure PassAcc (W : Type) where
  w : W
  trace : List Call
  errs : List Err
  relaysRemoved : Nat
  agentsRemoved : Nat
  deriving Repr

/-- The relay loop of Registry.runTTLCleanup over the snapshot. -/
def relayPhase (B : BackendOps W) (relayTTL agentTTL nowT : Int) :
    PassAcc W → List Relay → PassAcc W
  | acc, [] => acc
  | acc, relay :: rest =>
    match relayStep B relayTTL agentTTL nowT acc.w relay with
    | (w1, tr, es, nr, na) =>
      relayPhase B relayTTL agentTTL nowT
        ⟨w1, acc.trace ++ tr, acc.errs ++ es,
          acc.relaysRemoved + nr, acc.agentsRemoved + na⟩ rest

/-- Result of Registry.runTTLCleanup: the in-progress flag after the
call, the backend world, the call log, the recorded errors (an empty
list standing for a nil return) and the counters. -/
structure PassResult (W : Type) where
  flagAfter : Bool
  w : W
  trace : List Call
  errs : List Err
  relaysRemoved : Nat
  agentsRemoved : Nat
  deriving Repr

/-- The leftover agent pass at the tail of Registry.runTTLCleanup:
snapshot all agents, collect the stale ones, re-confirm, remove. -/
def leftoverSweep (B : BackendOps W) (agentTTL nowT : Int) (acc : PassAcc W) :
    PassResult W :=
  match B.listAgents acc.w with
  | (w1, Except.error e) =>
    ⟨false, w1, acc.trace ++ [Call.listAgents], acc.errs ++ [e],
      acc.relaysRemoved, acc.agentsRemoved⟩
  | (w1, Except.ok agents) =>
    let staleIDs := (agents.filter (fun agent =>
      decide (agentTTL ≤ nowT - agent.LastHeartbeat))).map Agent.ID
    if staleIDs.isEmpty then
      ⟨false, w1, acc.trace ++ [Call.listAgents], acc.errs,
        acc.relaysRemoved, acc.agentsRemoved⟩
    else
      match B.now w1 with
      | (w2, t2) =>
        match filterStillStaleAgents B agentTTL w2 staleIDs t2 with
        | (w3, tr2, Except.error e) =>
          ⟨false, w3, acc.trace ++ Call.listAgents :: tr2, acc.errs ++ [e],
            acc.relaysRemoved, acc.agentsRemoved⟩
        | (w3, tr2, Except.ok filtered) =>
          if filtered.isEmpty then
            ⟨false, w3, acc.trace ++ Call.listAgents :: tr2, acc.errs,
              acc.relaysRemoved, acc.agentsRemoved⟩
          else
            match B.removeAgents w3 filtered with
            | (w4, some e) =>
              ⟨false, w4,
                acc.trace ++ Call.listAgents :: tr2 ++ [Call.removeAgents filtered],
                acc.errs ++ [e], acc.relaysRemoved, acc.agentsRemoved⟩
            | (w4, none) =>
              ⟨false, w4,
                acc.trace ++ Call.listAgents :: tr2 ++ [Call.removeAgents filtered],
                acc.errs, acc.relaysRemoved, acc.agentsRemoved + filtered.length⟩

/-- Registry.runTTLCleanup from registry.go: reentrancy guard on the
cleanupInProgress flag, relay snapshot, the relay loop, then the
leftover agent pass; errors are accumulated, never aborting the pass. -/
def runTTLCleanup (B : BackendOps W) (relayTTL agentTTL : Int)
    (inProgress : Bool) (w : W) (nowT : Int) : PassResult W :=
  if inProgress then ⟨true, w, [], [], 0, 0⟩
  else
    match B.listRelays w with
    | (w1, Except.error e) => ⟨false, w1, [Call.listRelays], [e], 0, 0⟩
    | (w1, Except.ok relays) =>
      leftoverSweep B agentTTL nowT
        (relayPhase B relayTTL agentTTL nowT ⟨w1, [Call.listRelays], [], 0, 0⟩ relays)

/-- Registry.nextTTLCleanupInterval from registry.go: the tighter TTL
plus jitter below a tenth of it; rnd stands for rand.Int64N, drawn at
the argument maxJitter + 1. Go integer division truncates toward
zero. -/
def nextTTLCleanupInterval (relayTTL agentTTL : Int) (rnd : Int → Int) : Int :=
  let ttl := min relayTTL agentTTL
  let maxJitter := ttl.tdiv 10
  if maxJitter ≤ 0 then ttl
  else ttl + rnd (maxJitter + 1)

/-- An instantiation of the backend contract with the in-memory backend
as the world, together with a call counter; interfere models concurrent
writers acting between the sweeper calls (the onListRelays hooks of the
tests) and clock models time.Now. -/
def memOracle (interfere : Nat → Memory.Backend → Memory.Backend)
    (clock : Nat → Int) : BackendOps (Memory.Backend × Nat) :=
  { listRelays := fun sn =>
      match Memory.ListRelays false (interfere sn.2 sn.1) with
      | (s1, res) => ((s1, sn.2 + 1), res),
    listAgents := fun sn =>
      match Memory.ListAgents false (interfere sn.2 sn.1) with
      | (s1, res) => ((s1, sn.2 + 1), res),
    listRelayAgents := fun sn rid =>
      match Memory.ListRelayAgents false (interfere sn.2 sn.1) rid with
      | (s1, res) => ((s1, sn.2 + 1), res),
    getAgentPlacement := fun sn aid =>
      match Memory.GetAgentPlacement false (interfere sn.2 sn.1) aid with
      | (s1, res) => ((s1, sn.2 + 1), res),
    removeAgents := fun sn ids =>
      match Memory.RemoveAgents false (interfere sn.2 sn.1) ids with
      | (s1, res) => ((s1, sn.2 + 1), res),
    removeRelay := fun sn rid =>
      match Memory.RemoveRelay false (interfere sn.2 sn.1) rid with
      | (s1, res) => ((s1, sn.2 + 1), res),
    now := fun sn => ((sn.1, sn.2 + 1), clock sn.2) }

/-- Identity interference: no concurrent writer. -/
def noInterfere : Nat → Memory.Backend → Memory.Backend := fun _ s => s

/-- A constant clock at sweep time 45. -/
def clock45 : Nat → Int := fun _ => 45

/-- The backend state of the relay-first sweep scenario of the tests:
a fresh and a stale relay, an agent under each, and an unplaced stale
agent. -/
def sweepState : Memory.Backend :=
  { relays :=
      [("relay-fresh", { ID := "relay-fresh", Address := "", GRPCPort := 0, LastSeen := 40 }),
       ("relay-stale", { ID := "relay-stale", Address := "", GRPCPort := 0, LastSeen := 0 })],
    agents :=
      [("agent-under-stale-relay", { ID := "agent-under-stale-relay", LastHeartbeat := 43 }),
       ("agent-leftover-stale", { ID := "agent-leftover-stale", LastHeartbeat := 5 }),
       ("agent-fresh", { ID := "agent-fresh", LastHeartbeat := 44 })],
    placements :=
      [("agent-under-stale-relay",
         { AgentID := "agent-under-stale-relay", RelayID := "relay-stale", UpdatedAt := 43 }),
       ("agent-fresh",
         { AgentID := "agent-fresh", RelayID := "relay-fresh", UpdatedAt := 44 })] }

example :
    (runTTLCleanup (memOracle noInterfere clock45) 30 30 false (sweepState, 0) 45).trace
    = [Call.listRelays,
       Call.listRelayAgents "relay-fresh",
       Call.listRelays,
       Call.listRelayAgents "relay-stale",
       Call.getAgentPlacement "agent-under-stale-relay",
       Call.removeAgents ["agent-under-stale-relay"],
       Call.removeRelay "relay-stale",
       Call.listAgents,
       Call.listAgents,
       Call.removeAgents ["agent-leftover-stale"]] := by decide

theorem mem_of_mget {α : Type} {m : List (String × α)} {k : String} {v : α}
    (h : mget m k = some v) : (k, v) ∈ m := by
  induction m with
  | nil => simp [mget] at h
  | cons kv rest ih =>
    rw [mget] at h
    by_cases hk : kv.1 == k
    · rw [if_pos hk] at h
      have hk1 : kv.1 = k := by simpa using hk
      have hv : kv.2 = v := by simpa using h
      have hkv : kv = (k, v) := by
        rw [← hk1, ← hv]
      rw [← hkv]
      exact List.mem_cons_self _ _
    · rw [if_neg hk] at h
      exact List.mem_cons_of_mem _ (ih h)

theorem mget_of_mem_of_nodup {α : Type} {m : List (String × α)} {kv : String × α}
    (hnd : (m.map Prod.fst).Nodup) (hm : kv ∈ m) : mget m kv.1 = some kv.2 := by
  induction m with
  | nil => simp at hm
  | cons kv0 rest ih =>
    rw [List.map_cons, List.nodup_cons] at hnd
    rcases List.mem_cons.mp hm with h | h
    · rw [h, mget, if_pos (by simp)]
    · have hne : kv0.1 ≠ kv.1 := by
        intro he
        exact hnd.1 (he ▸ List.mem_map_of_mem Prod.fst h)
      rw [mget, if_neg (by simpa using hne)]
      exact ih hnd.2 h

theorem mget_filter_eq_none_of_key {α : Type} {m : List (String × α)}
    {Q : String × α → Bool} {k : String}
    (hk : ∀ kv ∈ m, kv.1 = k → Q kv = false) : mget (m.filter Q) k = none := by
  induction m with
  | nil => simp [mget]
  | cons kv rest ih =>
    rw [List.filter_cons]
    by_cases hQ : Q kv
    · rw [if_pos hQ, mget]
      have hne : ¬(kv.1 == k) := by
        intro hb
        have : Q kv = false := hk kv (List.mem_cons_self _ _) (by simpa using hb)
        rw [this] at hQ
        exact Bool.false_ne_true hQ
      rw [if_neg hne]
      exact ih (fun kv' h h' => hk kv' (List.mem_cons_of_mem _ h) h')
    · rw [if_neg hQ]
      exact ih (fun kv' h h' => hk kv' (List.mem_cons_of_mem _ h) h')

theorem mget_filter_eq_of_key {α : Type} {m : List (String × α)}
    {Q : String × α → Bool} {k : String}
    (hk : ∀ kv ∈ m, kv.1 = k → Q kv = true) : mget (m.filter Q) k = mget m k := by
  induction m with
  | nil => simp
  | cons kv rest ih =>
    rw [List.filter_cons]
    by_cases hQ : Q kv
    · rw [if_pos hQ, mget, mget]
      by_cases hb : kv.1 == k
      · rw [if_pos hb, if_pos hb]
      · rw [if_neg hb, if_neg hb]
        exact ih (fun kv' h h' => hk kv' (List.mem_cons_of_mem _ h) h')
    · have hne : ¬(kv.1 == k) := by
        intro hb
        have := hk kv (List.mem_cons_self _ _) (by simpa using hb)
        rw [this] at hQ
        exact hQ rfl
      rw [if_neg hQ, mget, if_neg hne]
      exact ih (fun kv' h h' => hk kv' (List.mem_cons_of_mem _ h) h')

theorem mget_mset_self {α : Type} (m : List (String × α)) (k : String) (v : α) :
    mget (mset m k v) k = some v := by
  induction m with
  | nil => simp [mset, mget]
  | cons kv rest ih =>
    rw [mset]
    by_cases hb : kv.1 == k
    · rw [if_pos hb, mget, if_pos (by simp)]
    · rw [if_neg hb, mget, if_neg hb]
      exact ih

theorem mem_map_fst_mset {α : Type} {m : List (String × α)} {k x : String} {v : α}
    (h : x ∈ (mset m k v).map Prod.fst) : x = k ∨ x ∈ m.map Prod.fst := by
  induction m with
  | nil => simp [mset] at h; exact Or.inl h
  | cons kv rest ih =>
    rw [mset] at h
    by_cases hb : kv.1 == k
    · rw [if_pos hb] at h
      rcases List.mem_map.mp h with ⟨kv', hkv', he⟩
      rcases List.mem_cons.mp hkv' with h' | h'
      · exact Or.inl (by rw [← he, h'])
      · exact Or.inr (List.mem_cons.mpr (Or.inr (he ▸ List.mem_map_of_mem Prod.fst h')))
    · rw [if_neg hb, List.map_cons] at h
      rcases List.mem_cons.mp h with h' | h'
      · exact Or.inr (List.mem_cons.mpr (Or.inl h'))
      · rcases ih h' with h'' | h''
        · exact Or.inl h''
        · exact Or.inr (List.mem_cons.mpr (Or.inr h''))

theorem mset_nodup {α : Type} {m : List (String × α)} (k : String) (v : α)
    (hnd : (m.map Prod.fst).Nodup) : ((mset m k v).map Prod.fst).Nodup := by
  induction m with
  | nil => simp [mset]
  | cons kv rest ih =>
    rw [List.map_cons, List.nodup_cons] at hnd
    rw [mset]
    by_cases hb : kv.1 == k
    · rw [if_pos hb, List.map_cons, List.nodup_cons]
      refine ⟨?_, hnd.2⟩
      have hk1 : kv.1 = k := by simpa using hb
      rw [← hk1]
      exact hnd.1
    · rw [if_neg hb, List.map_cons, List.nodup_cons]
      refine ⟨?_, ih hnd.2⟩
      intro hmem
      rcases mem_map_fst_mset hmem with h | h
      · exact hb (by simpa using h)
      · exact hnd.1 h

/-- C8: when the cleanupInProgress flag is already set, runTTLCleanup
performs no backend calls, returns success, and leaves the flag and the
backend world unchanged. -/
theorem runTTLCleanup_skip_when_in_progress {W : Type} (B : BackendOps W)
    (relayTTL agentTTL : Int) (w : W) (nowT : Int) :
    runTTLCleanup B relayTTL agentTTL true w nowT = ⟨true, w, [], [], 0, 0⟩ := rfl

/-- C7: with base = min(TTL.Relay, TTL.Agent) and rnd the semantics of
rand.Int64N (a value in [0, n) at argument n), a nonpositive base is
returned unchanged, and a positive base yields a duration within
[base, base + base/10] with truncating division. -/
theorem nextTTLCleanupInterval_bounds (relayTTL agentTTL : Int) (rnd : Int → Int)
    (hrnd : ∀ n : Int, 0 < n → 0 ≤ rnd n ∧ rnd n < n) :
    (min relayTTL agentTTL ≤ 0 →
      nextTTLCleanupInterval relayTTL agentTTL rnd = min relayTTL agentTTL)
    ∧ (0 < min relayTTL agentTTL →
        min relayTTL agentTTL ≤ nextTTLCleanupInterval relayTTL agentTTL rnd
          ∧ nextTTLCleanupInterval relayTTL agentTTL rnd
              ≤ min relayTTL agentTTL + (min relayTTL agentTTL).tdiv 10) := by
  constructor
  · intro h
    have hj : (min relayTTL agentTTL).tdiv 10 ≤ 0 := by
      have h1 : (0:Int) ≤ -(min relayTTL agentTTL) := by omega
      have h2 : (0:Int) ≤ (-(min relayTTL agentTTL)).tdiv 10 :=
        Int.tdiv_nonneg h1 (by norm_num)
      rw [Int.neg_tdiv] at h2
      omega
    rw [nextTTLCleanupInterval]
    simp [hj]
  · intro h
    have hj : 0 ≤ (min relayTTL agentTTL).tdiv 10 :=
      Int.tdiv_nonneg (le_of_lt h) (by norm_num)
    rw [nextTTLCleanupInterval]
    by_cases hz : (min relayTTL agentTTL).tdiv 10 ≤ 0
    · simp only [hz, if_true]
      omega
    · simp only [hz, if_false]
      have hpos : 0 < (min relayTTL agentTTL).tdiv 10 + 1 := by omega
      have hr := hrnd ((min relayTTL agentTTL).tdiv 10 + 1) hpos
      omega

/-- C7 witness: the bounds instantiated at TTLs 30 and 20 with the
constant zero draw. -/
theorem nextTTLCleanupInterval_bounds_witness :
    ((min (30:Int) 20 ≤ 0 →
      nextTTLCleanupInterval 30 20 (fun _ => 0) = min (30:Int) 20)
    ∧ (0 < min (30:Int) 20 →
        min (30:Int) 20 ≤ nextTTLCleanupInterval 30 20 (fun _ => 0)
          ∧ nextTTLCleanupInterval 30 20 (fun _ => 0)
              ≤ min (30:Int) 20 + (min (30:Int) 20).tdiv 10)) :=
  nextTTLCleanupInterval_bounds 30 20 (fun _ => 0)
    (fun _ hn => ⟨le_refl 0, hn⟩)

/-- C4: RegisterAgent against an unregistered relay fails with the
NotFound kind and leaves the whole backend state unchanged. -/
theorem registerAgent_unknown_relay (b : Memory.Backend) (agent : Agent)
    (rid : String) (t : Int) (h : mget b.relays rid = none) :
    Memory.RegisterAgent false b agent rid t = (b, some Err.notFound) := by
  rw [Memory.RegisterAgent]
  simp [h]

/-- C4 witness: the empty backend at a concrete agent and relay. -/
theorem registerAgent_unknown_relay_witness :
    Memory.RegisterAgent false ⟨[], [], []⟩ ⟨"a1", 0⟩ "r1" 7
      = (⟨[], [], []⟩, some Err.notFound) :=
  registerAgent_unknown_relay ⟨[], [], []⟩ ⟨"a1", 0⟩ "r1" 7 (by decide)

/-- C9: RemoveAgents succeeds on any ID sequence, absent IDs are
silently ignored, each listed agent is deleted together with its
placement, and all other agents, placements and relays are unchanged. -/
theorem removeAgents_silent_ignore (b : Memory.Backend) (ids : List String) :
    (Memory.RemoveAgents false b ids).2 = none
    ∧ (∀ aid ∈ ids, mget (Memory.RemoveAgents false b ids).1.agents aid = none
        ∧ mget (Memory.RemoveAgents false b ids).1.placements aid = none)
    ∧ (∀ aid, aid ∉ ids →
        mget (Memory.RemoveAgents false b ids).1.agents aid = mget b.agents aid
        ∧ mget (Memory.RemoveAgents false b ids).1.placements aid = mget b.placements aid)
    ∧ (Memory.RemoveAgents false b ids).1.relays = b.relays := by
  refine ⟨rfl, ?_, ?_, rfl⟩
  · intro aid hin
    constructor
    · apply mget_filter_eq_none_of_key
      intro kv _ hk
      simp [hk, List.contains, hin]
    · apply mget_filter_eq_none_of_key
      intro kv _ hk
      simp [hk, List.contains, hin]
  · intro aid hout
    constructor
    · apply mget_filter_eq_of_key
      intro kv _ hk
      simp [hk, List.contains, hout]
    · apply mget_filter_eq_of_key
      intro kv _ hk
      simp [hk, List.contains, hout]

/-- C9 witness: removing one present and one absent agent ID. -/
theorem removeAgents_silent_ignore_witness :
    (Memory.RemoveAgents false
        ⟨[], [("a1", ⟨"a1", 0⟩), ("a2", ⟨"a2", 0⟩)],
          [("a1", ⟨"a1", "r1", 0⟩)]⟩ ["a1", "ghost"]).2 = none
    ∧ mget (Memory.RemoveAgents false
        ⟨[], [("a1", ⟨"a1", 0⟩), ("a2", ⟨"a2", 0⟩)],
          [("a1", ⟨"a1", "r1", 0⟩)]⟩ ["a1", "ghost"]).1.agents "a1" = none
    ∧ mget (Memory.RemoveAgents false
        ⟨[], [("a1", ⟨"a1", 0⟩), ("a2", ⟨"a2", 0⟩)],
          [("a1", ⟨"a1", "r1", 0⟩)]⟩ ["a1", "ghost"]).1.agents "a2"
        = mget (⟨[], [("a1", ⟨"a1", 0⟩), ("a2", ⟨"a2", 0⟩)],
          [("a1", ⟨"a1", "r1", 0⟩)]⟩ : Memory.Backend).agents "a2" := by
  refine ⟨(removeAgents_silent_ignore _ _).1,
    ((removeAgents_silent_ignore _ _).2.1 "a1" (by decide)).1,
    ((removeAgents_silent_ignore _ _).2.2.1 "a2" (by decide)).1⟩

/-- The one-relay backend state used to exhibit the cancellation
counterexample. -/
def cancelState : Memory.Backend :=
  { relays := [("r1", { ID := "r1", Address := "", GRPCPort := 0, LastSeen := 0 })],
    agents := [], placements := [] }

/-- C1 counterexample: HeartbeatRelay on a cancelled context returns the
Canceled kind, yet the relay LastSeen field was already updated, so the
backend state is not unchanged. -/
theorem heartbeatRelay_canceled_mutates :
    (Memory.HeartbeatRelay true cancelState "r1" 5).2 = some Err.canceled
    ∧ (Memory.HeartbeatRelay true cancelState "r1" 5).1 ≠ cancelState
    ∧ mget (Memory.HeartbeatRelay true cancelState "r1" 5).1.relays "r1"
        = some { ID := "r1", Address := "", GRPCPort := 0, LastSeen := 5 }
    ∧ mget cancelState.relays "r1"
        = some { ID := "r1", Address := "", GRPCPort := 0, LastSeen := 0 } := by
  decide

/-- C1 amended: every memory backend operation that returns the Canceled
kind leaves the state unchanged, except HeartbeatRelay and
HeartbeatAgent, which check cancellation only before returning: they
return Canceled exactly when the target exists and then the heartbeat
timestamps have been fully applied and nothing else changed. -/
theorem memory_canceled_frame (ctx : Bool) (b : Memory.Backend) :
    (∀ relay t b1, Memory.RegisterRelay ctx b relay t = (b1, some Err.canceled) → b1 = b)
    ∧ (∀ rid b1, Memory.RemoveRelay ctx b rid = (b1, some Err.canceled) → b1 = b)
    ∧ (∀ agent rid t b1,
        Memory.RegisterAgent ctx b agent rid t = (b1, some Err.canceled) → b1 = b)
    ∧ (∀ ids b1, Memory.RemoveAgents ctx b ids = (b1, some Err.canceled) → b1 = b)
    ∧ (∀ b1 res, Memory.ListRelays ctx b = (b1, res) → b1 = b)
    ∧ (∀ b1 res, Memory.ListAgents ctx b = (b1, res) → b1 = b)
    ∧ (∀ rid b1 res, Memory.ListRelayAgents ctx b rid = (b1, res) → b1 = b)
    ∧ (∀ aid b1 res, Memory.GetAgentPlacement ctx b aid = (b1, res) → b1 = b)
    ∧ (∀ rid t b1, Memory.HeartbeatRelay ctx b rid t = (b1, some Err.canceled) →
        b1.agents = b.agents ∧ b1.placements = b.placements
          ∧ ∃ r, mget b.relays rid = some r
              ∧ b1.relays = mset b.relays rid ({ r with LastSeen := t }))
    ∧ (∀ aid t1 t2 b1, Memory.HeartbeatAgent ctx b aid t1 t2 = (b1, some Err.canceled) →
        b1.relays = b.relays
          ∧ ∃ a, mget b.agents aid = some a
              ∧ b1.agents = mset b.agents aid ({ a with LastHeartbeat := t1 })
              ∧ ((∃ p, mget b.placements aid = some p
                    ∧ b1.placements = mset b.placements aid ({ p with UpdatedAt := t2 }))
                ∨ (mget b.placements aid = none ∧ b1.placements = b.placements))) := by
  refine ⟨?_, ?_, ?_, ?_, ?_, ?_, ?_, ?_, ?_, ?_⟩
  · intro relay t b1 h
    cases ctx
    · cases hm : mget b.relays relay.ID <;>
        simp [Memory.RegisterRelay, hm] at h
    · simp [Memory.RegisterRelay] at h
      exact h.symm
  · intro rid b1 h
    cases ctx
    · by_cases hm : (mget b.relays rid).isNone <;>
        simp [Memory.RemoveRelay, hm] at h
    · simp [Memory.RemoveRelay] at h
      exact h.symm
  · intro agent rid t b1 h
    cases ctx
    · by_cases hm : (mget b.relays rid).isNone
      · simp [Memory.RegisterAgent, hm] at h
      · cases ha : mget b.agents agent.ID <;>
          simp [Memory.RegisterAgent, hm, ha] at h
    · simp [Memory.RegisterAgent] at h
      exact h.symm
  · intro ids b1 h
    cases ctx
    · simp [Memory.RemoveAgents] at h
    · simp [Memory.RemoveAgents] at h
      exact h.symm
  · intro b1 res h
    have h1 := congrArg Prod.fst h
    cases ctx <;> simp [Memory.ListRelays] at h1 <;>
      first | exact h1 | exact h1.symm
  · intro b1 res h
    have h1 := congrArg Prod.fst h
    cases ctx <;> simp [Memory.ListAgents] at h1 <;>
      first | exact h1 | exact h1.symm
  · intro rid b1 res h
    have h1 := congrArg Prod.fst h
    cases ctx <;> simp [Memory.ListRelayAgents] at h1 <;>
      first | exact h1 | exact h1.symm
  · intro aid b1 res h
    have h1 := congrArg Prod.fst h
    cases ctx
    · cases hm : mget b.placements aid <;>
        simp [Memory.GetAgentPlacement, hm] at h1 <;>
        first | exact h1 | exact h1.symm
    · simp [Memory.GetAgentPlacement] at h1
      first | exact h1 | exact h1.symm
  · intro rid t b1 h
    cases ctx
    · cases hm : mget b.relays rid <;> simp [Memory.HeartbeatRelay, hm] at h
    · cases hm : mget b.relays rid with
      | none => simp [Memory.HeartbeatRelay, hm] at h
      | some r =>
        simp only [Memory.HeartbeatRelay, hm, if_true] at h
        have hb : b1 = { b with relays := mset b.relays rid ({ r with LastSeen := t }) } := by
          exact (Prod.mk.injEq _ _ _ _ ▸ h).1.symm
        subst hb
        exact ⟨rfl, rfl, r, rfl, rfl⟩
  · intro aid t1 t2 b1 h
    cases ctx
    · cases hm : mget b.agents aid with
      | none => simp [Memory.HeartbeatAgent, hm] at h
      | some a =>
        cases hp : mget b.placements aid <;>
          simp [Memory.HeartbeatAgent, hm, hp] at h
    · cases hm : mget b.agents aid with
      | none => simp [Memory.HeartbeatAgent, hm] at h
      | some a =>
        cases hp : mget b.placements aid with
        | none =>
          simp only [Memory.HeartbeatAgent, hm, hp, if_true] at h
          have hb : b1 = { b with agents := mset b.agents aid ({ a with LastHeartbeat := t1 }) } := by
            exact (Prod.mk.injEq _ _ _ _ ▸ h).1.symm
          subst hb
          exact ⟨rfl, a, rfl, rfl, Or.inr ⟨rfl, rfl⟩⟩
        | some p =>
          simp only [Memory.HeartbeatAgent, hm, hp, if_true] at h
          have hb : b1 = { b with
              agents := mset b.agents aid ({ a with LastHeartbeat := t1 }),
              placements := mset b.placements aid ({ p with UpdatedAt := t2 }) } := by
            exact (Prod.mk.injEq _ _ _ _ ▸ h).1.symm
          subst hb
          exact ⟨rfl, a, rfl, rfl, Or.inl ⟨p, rfl, rfl⟩⟩

/-- C1 amended witness: the HeartbeatRelay clause of the frame theorem
applied at the cancellation counterexample state. -/
theorem memory_canceled_frame_witness :
    (Memory.HeartbeatRelay true cancelState "r1" 5).1.agents = cancelState.agents
    ∧ (Memory.HeartbeatRelay true cancelState "r1" 5).1.placements = cancelState.placements
    ∧ ∃ r, mget cancelState.relays "r1" = some r
        ∧ (Memory.HeartbeatRelay true cancelState "r1" 5).1.relays
            = mset cancelState.relays "r1" ({ r with LastSeen := 5 }) :=
  (memory_canceled_frame true cancelState).2.2.2.2.2.2.2.2.1 "r1" 5
    (Memory.HeartbeatRelay true cancelState "r1" 5).1 (by decide)

theorem registerAgent_ok_placements {b b1 : Memory.Backend} {agent : Agent}
    {rid : String} {t : Int}
    (h : Memory.RegisterAgent false b agent rid t = (b1, none)) :
    b1.placements = mset b.placements agent.ID
      { AgentID := agent.ID, RelayID := rid, UpdatedAt := t } := by
  have hb : (Memory.RegisterAgent false b agent rid t).1 = b1 := by rw [h]
  by_cases hm : (mget b.relays rid).isNone
  · simp [Memory.RegisterAgent, hm] at h
  · cases ha : mget b.agents agent.ID with
    | none => rw [← hb]; simp [Memory.RegisterAgent, hm, ha]
    | some a => rw [← hb]; simp [Memory.RegisterAgent, hm, ha]

/-- C3: a second successful RegisterAgent of the same agent against a
second relay rewrites the single placement to the second relay with the
timestamp of the second call; the agent keeps no placement binding to
the first relay. -/
theorem registerAgent_reassignment
    (b b1 b2 : Memory.Backend) (agent : Agent) (r1 r2 : String) (t1 t2 : Int)
    (hnd : (b.placements.map Prod.fst).Nodup)
    (h1 : Memory.RegisterAgent false b agent r1 t1 = (b1, none))
    (h2 : Memory.RegisterAgent false b1 agent r2 t2 = (b2, none)) :
    mget b2.placements agent.ID
        = some { AgentID := agent.ID, RelayID := r2, UpdatedAt := t2 }
    ∧ Memory.GetAgentPlacement false b2 agent.ID
        = (b2, Except.ok { AgentID := agent.ID, RelayID := r2, UpdatedAt := t2 })
    ∧ ∀ kv ∈ b2.placements, kv.1 = agent.ID →
        kv.2 = { AgentID := agent.ID, RelayID := r2, UpdatedAt := t2 } := by
  have hp1 := registerAgent_ok_placements h1
  have hp2 := registerAgent_ok_placements h2
  have hnd1 : (b1.placements.map Prod.fst).Nodup := by
    rw [hp1]; exact mset_nodup _ _ hnd
  have hnd2 : (b2.placements.map Prod.fst).Nodup := by
    rw [hp2]; exact mset_nodup _ _ hnd1
  have hget : mget b2.placements agent.ID
      = some { AgentID := agent.ID, RelayID := r2, UpdatedAt := t2 } := by
    rw [hp2]; exact mget_mset_self _ _ _
  refine ⟨hget, ?_, ?_⟩
  · simp [Memory.GetAgentPlacement, hget]
  · intro kv hkv hk
    have hv := mget_of_mem_of_nodup hnd2 hkv
    rw [hk, hget] at hv
    simpa using hv.symm

/-- The two-relay backend used to instantiate the reassignment claim. -/
def twoRelayState : Memory.Backend :=
  { relays :=
      [("r1", { ID := "r1", Address := "", GRPCPort := 0, LastSeen := 0 }),
       ("r2", { ID := "r2", Address := "", GRPCPort := 0, LastSeen := 0 })],
    agents := [], placements := [] }

/-- C3 witness: agent a1 registered on r1 then on r2 at the two-relay
state. -/
theorem registerAgent_reassignment_witness :
    mget (Memory.RegisterAgent false
        (Memory.RegisterAgent false twoRelayState ⟨"a1", 0⟩ "r1" 1).1
        ⟨"a1", 0⟩ "r2" 2).1.placements "a1"
      = some { AgentID := "a1", RelayID := "r2", UpdatedAt := 2 }
    ∧ Memory.GetAgentPlacement false
        (Memory.RegisterAgent false
          (Memory.RegisterAgent false twoRelayState ⟨"a1", 0⟩ "r1" 1).1
          ⟨"a1", 0⟩ "r2" 2).1 "a1"
      = ((Memory.RegisterAgent false
          (Memory.RegisterAgent false twoRelayState ⟨"a1", 0⟩ "r1" 1).1
          ⟨"a1", 0⟩ "r2" 2).1,
         Except.ok { AgentID := "a1", RelayID := "r2", UpdatedAt := 2 })
    ∧ ∀ kv ∈ (Memory.RegisterAgent false
        (Memory.RegisterAgent false twoRelayState ⟨"a1", 0⟩ "r1" 1).1
        ⟨"a1", 0⟩ "r2" 2).1.placements, kv.1 = "a1" →
        kv.2 = { AgentID := "a1", RelayID := "r2", UpdatedAt := 2 } :=
  registerAgent_reassignment twoRelayState
    (Memory.RegisterAgent false twoRelayState ⟨"a1", 0⟩ "r1" 1).1
    (Memory.RegisterAgent false
      (Memory.RegisterAgent false twoRelayState ⟨"a1", 0⟩ "r1" 1).1
      ⟨"a1", 0⟩ "r2" 2).1
    ⟨"a1", 0⟩ "r1" "r2" 1 2 (by decide) (by decide) (by decide)

/-- The state RemoveRelay leaves behind on its success path: the relay
deleted, the matching placements deleted, the agents of those placements
deleted. -/
def removeRelayResult (b : Memory.Backend) (rid : String) : Memory.Backend :=
  { relays := b.relays.filter (fun kv => !(kv.1 == rid)),
    agents := b.agents.filter (fun kv =>
      !(b.placements.any (fun pkv => pkv.1 == kv.1 && pkv.2.RelayID == rid))),
    placements := b.placements.filter (fun kv => !(kv.2.RelayID == rid)) }

/-- C2: a successful RemoveRelay removes the relay from the relay list
(ListRelays no longer contains it) and removes every agent placed on it
together with the placement, so GetAgentPlacement fails NotFound for
each of them. -/
theorem removeRelay_cascade
    (b b1 : Memory.Backend) (rid : String)
    (hnd : (b.placements.map Prod.fst).Nodup)
    (hkey : ∀ kv ∈ b.relays, kv.2.ID = kv.1)
    (hok : Memory.RemoveRelay false b rid = (b1, none)) :
    (∃ l, Memory.ListRelays false b1 = (b1, Except.ok l) ∧ ∀ r ∈ l, r.ID ≠ rid)
    ∧ ∀ aid p, mget b.placements aid = some p → p.RelayID = rid →
        mget b1.agents aid = none
        ∧ Memory.GetAgentPlacement false b1 aid = (b1, Except.error Err.notFound) := by
  have hb : (Memory.RemoveRelay false b rid).1 = b1 := by rw [hok]
  by_cases hm : (mget b.relays rid).isNone
  · simp [Memory.RemoveRelay, hm] at hok
  · have hb1 : b1 = removeRelayResult b rid := by
      rw [← hb]; simp [Memory.RemoveRelay, hm, removeRelayResult]
    subst hb1
    simp only [removeRelayResult]
    refine ⟨⟨_, rfl, ?_⟩, ?_⟩
    · intro r hr he2
      rcases List.mem_map.mp hr with ⟨kv, hkv, he⟩
      rcases List.mem_filter.mp hkv with ⟨hmem, hfil⟩
      have hid : kv.1 = rid := by
        rw [← hkey kv hmem, he]; exact he2
      simp [hid] at hfil
    · intro aid p hp hrel
      have hpm := mem_of_mget hp
      constructor
      · apply mget_filter_eq_none_of_key
        intro kv _ hk
        have hany : b.placements.any
            (fun pkv => pkv.1 == kv.1 && pkv.2.RelayID == rid) = true :=
          List.any_eq_true.mpr ⟨(aid, p), hpm, by simp [hk, hrel]⟩
        simp [hany]
      · have hnone :
            mget (b.placements.filter (fun kv => !(kv.2.RelayID == rid))) aid = none := by
          apply mget_filter_eq_none_of_key
          intro kv hkv hk
          have h2 := mget_of_mem_of_nodup hnd hkv
          rw [hk, hp] at h2
          have hkv2 : kv.2 = p := by simpa using h2.symm
          simp [hkv2, hrel]
        simp [Memory.GetAgentPlacement, hnone]

/-- The one-relay two-agent backend used to instantiate the cascade
claim. -/
def cascadeState : Memory.Backend :=
  { relays := [("r1", { ID := "r1", Address := "", GRPCPort := 0, LastSeen := 0 })],
    agents := [("a1", { ID := "a1", LastHeartbeat := 0 }),
               ("a2", { ID := "a2", LastHeartbeat := 0 })],
    placements := [("a1", { AgentID := "a1", RelayID := "r1", UpdatedAt := 0 }),
                   ("a2", { AgentID := "a2", RelayID := "r1", UpdatedAt := 0 })] }

/-- C2 witness: removing relay r1 at the cascade state removes agent a1
and its placement. -/
theorem removeRelay_cascade_witness :
    (∃ l, Memory.ListRelays false (Memory.RemoveRelay false cascadeState "r1").1
        = ((Memory.RemoveRelay false cascadeState "r1").1, Except.ok l)
      ∧ ∀ r ∈ l, r.ID ≠ "r1")
    ∧ ∀ aid p, mget cascadeState.placements aid = some p → p.RelayID = "r1" →
        mget (Memory.RemoveRelay false cascadeState "r1").1.agents aid = none
        ∧ Memory.GetAgentPlacement false (Memory.RemoveRelay false cascadeState "r1").1 aid
            = ((Memory.RemoveRelay false cascadeState "r1").1, Except.error Err.notFound) :=
  removeRelay_cascade cascadeState (Memory.RemoveRelay false cascadeState "r1").1 "r1"
    (by decide) (by decide) (by decide)

theorem isRelayStillStale_trace {W : Type} (B : BackendOps W) (relayTTL : Int)
    (w : W) (relayID : String) (t : Int) :
    (isRelayStillStale B relayTTL w relayID t).2.1 = [Call.listRelays] := by
  rcases hres : B.listRelays w with ⟨w1, res⟩
  rw [isRelayStillStale, hres]
  cases res with
  | error e => rfl
  | ok relays =>
    cases hf : relays.find? (fun relay => relay.ID == relayID) <;> simp [hf]

theorem filterStillStaleAgents_calls {W : Type} (B : BackendOps W) (agentTTL : Int)
    (w : W) (ids : List String) (t : Int) :
    ∀ c ∈ (filterStillStaleAgents B agentTTL w ids t).2.1, c = Call.listAgents := by
  intro c hc
  rw [filterStillStaleAgents] at hc
  by_cases he : ids.isEmpty
  · simp [he] at hc
  · rw [if_neg he] at hc
    rcases hres : B.listAgents w with ⟨w1, res⟩
    rw [hres] at hc
    cases res <;> simpa using hc

theorem placedLoop_calls {W : Type} (B : BackendOps W) (relayID : String) :
    ∀ (ids : List String) (w : W),
      ∀ c ∈ (placedLoop B relayID w ids).2.1, ∃ aid, c = Call.getAgentPlacement aid := by
  intro ids
  induction ids with
  | nil => intro w c hc; simp [placedLoop] at hc
  | cons aid rest ih =>
    intro w c hc
    rw [placedLoop] at hc
    rcases hg : B.getAgentPlacement w aid with ⟨w1, res⟩
    rw [hg] at hc
    cases res with
    | error e =>
      dsimp only at hc
      rcases hr : placedLoop B relayID w1 rest with ⟨w2, tr, keep, es⟩
      rw [hr] at hc
      dsimp only at hc
      simp only [List.mem_cons] at hc
      rcases hc with hc | hc
      · exact ⟨aid, hc⟩
      · exact ih w1 c (by rw [hr]; exact hc)
    | ok p =>
      dsimp only at hc
      rcases hr : placedLoop B relayID w1 rest with ⟨w2, tr, keep, es⟩
      rw [hr] at hc
      dsimp only at hc
      simp only [List.mem_cons] at hc
      rcases hc with hc | hc
      · exact ⟨aid, hc⟩
      · exact ih w1 c (by rw [hr]; exact hc)

theorem placedLoop_keep_sound {W : Type} (B : BackendOps W) (relayID : String) :
    ∀ (ids : List String) (w : W),
      ∀ aid ∈ (placedLoop B relayID w ids).2.2.1,
        aid ∈ ids ∧ ∃ wa wb p, B.getAgentPlacement wa aid = (wb, Except.ok p)
          ∧ p.RelayID = relayID := by
  intro ids
  induction ids with
  | nil => intro w aid h; simp [placedLoop] at h
  | cons aid0 rest ih =>
    intro w aid h
    rw [placedLoop] at h
    rcases hg : B.getAgentPlacement w aid0 with ⟨w1, res⟩
    rw [hg] at h
    cases res with
    | error e =>
      dsimp only at h
      rcases hr : placedLoop B relayID w1 rest with ⟨w2, tr, keep, es⟩
      rw [hr] at h
      dsimp only at h
      have h2 := ih w1 aid (by rw [hr]; exact h)
      exact ⟨List.mem_cons_of_mem _ h2.1, h2.2⟩
    | ok p =>
      dsimp only at h
      rcases hr : placedLoop B relayID w1 rest with ⟨w2, tr, keep, es⟩
      rw [hr] at h
      dsimp only at h
      by_cases hrel : (p.RelayID == relayID)
      · rw [if_pos hrel] at h
        simp only [List.mem_cons] at h
        rcases h with h | h
        · subst h
          exact ⟨List.mem_cons_self _ _, w, w1, p, hg, by simpa using hrel⟩
        · have h2 := ih w1 aid (by rw [hr]; exact h)
          exact ⟨List.mem_cons_of_mem _ h2.1, h2.2⟩
      · rw [if_neg hrel] at h
        have h2 := ih w1 aid (by rw [hr]; exact h)
        exact ⟨List.mem_cons_of_mem _ h2.1, h2.2⟩

theorem filterPlaced_calls {W : Type} (B : BackendOps W) (w : W) (relayID : String)
    (ids : List String) :
    ∀ c ∈ (filterAgentsStillPlacedOnRelay B w relayID ids).2.1,
      ∃ aid, c = Call.getAgentPlacement aid := by
  intro c hc
  rw [filterAgentsStillPlacedOnRelay] at hc
  by_cases he : ids.isEmpty
  · simp [he] at hc
  · rw [if_neg he] at hc
    exact placedLoop_calls B relayID ids w c hc

theorem removeRelayAgents_calls {W : Type} (B : BackendOps W) (w : W) (rid : String) :
    ∀ c ∈ (removeRelayAgents B w rid).2.1,
      c = Call.listRelayAgents rid ∨ (∃ aid, c = Call.getAgentPlacement aid)
        ∨ ∃ ids, c = Call.removeAgents ids := by
  intro c hc
  rw [removeRelayAgents] at hc
  rcases hl : B.listRelayAgents w rid with ⟨w1, res⟩
  rw [hl] at hc
  cases res with
  | error e => simp at hc; exact Or.inl hc
  | ok agents =>
    dsimp only at hc
    by_cases he : (agents.map Agent.ID).isEmpty
    · rw [if_pos he] at hc
      simp at hc
      exact Or.inl hc
    · rw [if_neg he] at hc
      rcases hf : filterAgentsStillPlacedOnRelay B w1 rid (agents.map Agent.ID)
        with ⟨w2, tr, filtered, es⟩
      rw [hf] at hc
      dsimp only at hc
      have htr : ∀ c ∈ tr, ∃ aid, c = Call.getAgentPlacement aid := by
        intro c hc2
        exact filterPlaced_calls B w1 rid (agents.map Agent.ID) c (by rw [hf]; exact hc2)
      by_cases hes : !es.isEmpty
      · rw [if_pos hes] at hc
        simp only [List.mem_cons] at hc
        rcases hc with hc | hc
        · exact Or.inl hc
        · exact Or.inr (Or.inl (htr c hc))
      · rw [if_neg hes] at hc
        by_cases hfe : filtered.isEmpty
        · rw [if_pos hfe] at hc
          simp only [List.mem_cons] at hc
          rcases hc with hc | hc
          · exact Or.inl hc
          · exact Or.inr (Or.inl (htr c hc))
        · rw [if_neg hfe] at hc
          rcases hra : B.removeAgents w2 filtered with ⟨w3, rres⟩
          rw [hra] at hc
          cases rres <;>
            (dsimp only at hc
             simp only [List.mem_cons, List.mem_append] at hc
             rcases hc with (hc | hc) | hc
             · exact Or.inl hc
             · exact Or.inr (Or.inl (htr c hc))
             · rcases hc with hc | hc
               · exact Or.inr (Or.inr ⟨filtered, hc⟩)
               · simp at hc)

theorem relayStep_calls {W : Type} (B : BackendOps W) (relayTTL agentTTL nowT : Int)
    (w : W) (relay : Relay) :
    ∀ c ∈ (relayStep B relayTTL agentTTL nowT w relay).2.1,
      c = Call.listRelays ∨ c = Call.listAgents
        ∨ c = Call.listRelayAgents relay.ID
        ∨ (∃ aid, c = Call.getAgentPlacement aid)
        ∨ (∃ ids, c = Call.removeAgents ids)
        ∨ c = Call.removeRelay relay.ID := by
  intro c hc
  rw [relayStep] at hc
  by_cases hstale : relayTTL ≤ nowT - relay.LastSeen
  · rw [if_pos hstale] at hc
    rcases hn : B.now w with ⟨w1, t1⟩
    rw [hn] at hc
    dsimp only at hc
    rcases hs : isRelayStillStale B relayTTL w1 relay.ID t1 with ⟨w2, tr1, sres⟩
    rw [hs] at hc
    have htr1 : tr1 = [Call.listRelays] := by
      have h2 := isRelayStillStale_trace B relayTTL w1 relay.ID t1
      rw [hs] at h2
      exact h2
    subst htr1
    cases sres with
    | error e =>
      dsimp only at hc
      simp at hc
      exact Or.inl hc
    | ok stale =>
      cases stale with
      | false =>
        dsimp only at hc
        simp at hc
        exact Or.inl hc
      | true =>
        dsimp only at hc
        rcases hr : removeRelayAgents B w2 relay.ID with ⟨w3, tr2, removed, es2⟩
        rw [hr] at hc
        dsimp only at hc
        rcases hrr : B.removeRelay w3 relay.ID with ⟨w4, rres⟩
        rw [hrr] at hc
        have htr2 : ∀ c ∈ tr2,
            c = Call.listRelayAgents relay.ID ∨ (∃ aid, c = Call.getAgentPlacement aid)
              ∨ ∃ ids, c = Call.removeAgents ids := by
          intro c hc2
          exact removeRelayAgents_calls B w2 relay.ID c (by rw [hr]; exact hc2)
        cases rres <;>
          (dsimp only at hc
           simp only [List.append_assoc, List.mem_append, List.mem_cons,
             List.not_mem_nil, or_false] at hc
           rcases hc with hc | hc | hc
           · exact Or.inl hc
           · rcases htr2 c hc with h2 | h2 | h2
             · exact Or.inr (Or.inr (Or.inl h2))
             · exact Or.inr (Or.inr (Or.inr (Or.inl h2)))
             · exact Or.inr (Or.inr (Or.inr (Or.inr (Or.inl h2))))
           · exact Or.inr (Or.inr (Or.inr (Or.inr (Or.inr hc)))))
  · rw [if_neg hstale] at hc
    rcases hl : B.listRelayAgents w relay.ID with ⟨w1, res⟩
    rw [hl] at hc
    cases res with
    | error e =>
      dsimp only at hc
      simp at hc
      exact Or.inr (Or.inr (Or.inl hc))
    | ok relayAgents =>
      dsimp only at hc
      by_cases he : ((relayAgents.filter (fun agent =>
          decide (agentTTL ≤ nowT - agent.LastHeartbeat))).map Agent.ID).isEmpty
      · rw [if_pos he] at hc
        simp at hc
        exact Or.inr (Or.inr (Or.inl hc))
      · rw [if_neg he] at hc
        rcases hn : B.now w1 with ⟨w2, t2⟩
        simp only [hn] at hc
        rcases hf : filterStillStaleAgents B agentTTL w2
            ((relayAgents.filter (fun agent =>
              decide (agentTTL ≤ nowT - agent.LastHeartbeat))).map Agent.ID) t2
          with ⟨w3, tr2, fres⟩
        rw [hf] at hc
        have htr2 : ∀ c ∈ tr2, c = Call.listAgents := by
          intro c hc2
          exact filterStillStaleAgents_calls B agentTTL w2 _ t2 c (by rw [hf]; exact hc2)
        cases fres with
        | error e =>
          dsimp only at hc
          simp only [List.mem_cons] at hc
          rcases hc with hc | hc
          · exact Or.inr (Or.inr (Or.inl hc))
          · exact Or.inr (Or.inl (htr2 c hc))
        | ok filtered =>
          dsimp only at hc
          by_cases hfe : filtered.isEmpty
          · rw [if_pos hfe] at hc
            simp only [List.mem_cons] at hc
            rcases hc with hc | hc
            · exact Or.inr (Or.inr (Or.inl hc))
            · exact Or.inr (Or.inl (htr2 c hc))
          · rw [if_neg hfe] at hc
            rcases hra : B.removeAgents w3 filtered with ⟨w4, rres⟩
            rw [hra] at hc
            cases rres <;>
              (dsimp only at hc
               simp only [List.mem_cons, List.mem_append, List.not_mem_nil,
                 or_false] at hc
               rcases hc with (hc | hc) | hc
               · exact Or.inr (Or.inr (Or.inl hc))
               · exact Or.inr (Or.inl (htr2 c hc))
               · exact Or.inr (Or.inr (Or.inr (Or.inr (Or.inl ⟨filtered, hc⟩)))))

theorem relayStep_skip {W : Type} (B : BackendOps W) (relayTTL agentTTL nowT t1 : Int)
    (w w1 w3 : W) (relay : Relay) (tr : List Call)
    (hstale : relayTTL ≤ nowT - relay.LastSeen)
    (hnow : B.now w = (w1, t1))
    (hskip : isRelayStillStale B relayTTL w1 relay.ID t1 = (w3, tr, Except.ok false)) :
    relayStep B relayTTL agentTTL nowT w relay = (w3, tr, [], 0, 0) := by
  rw [relayStep, if_pos hstale, hnow]
  dsimp only
  rw [hskip]

theorem relayPhase_shift {W : Type} (B : BackendOps W) (relayTTL agentTTL nowT : Int) :
    ∀ (rs : List Relay) (acc : PassAcc W),
      relayPhase B relayTTL agentTTL nowT acc rs
        = ⟨(relayPhase B relayTTL agentTTL nowT ⟨acc.w, [], [], 0, 0⟩ rs).w,
           acc.trace ++ (relayPhase B relayTTL agentTTL nowT ⟨acc.w, [], [], 0, 0⟩ rs).trace,
           acc.errs ++ (relayPhase B relayTTL agentTTL nowT ⟨acc.w, [], [], 0, 0⟩ rs).errs,
           acc.relaysRemoved
             + (relayPhase B relayTTL agentTTL nowT ⟨acc.w, [], [], 0, 0⟩ rs).relaysRemoved,
           acc.agentsRemoved
             + (relayPhase B relayTTL agentTTL nowT ⟨acc.w, [], [], 0, 0⟩ rs).agentsRemoved⟩ := by
  intro rs
  induction rs with
  | nil => intro acc; simp [relayPhase]
  | cons relay rest ih =>
    intro acc
    rw [relayPhase, relayPhase]
    rcases hs : relayStep B relayTTL agentTTL nowT acc.w relay with ⟨w1, tr, es, nr, na⟩
    dsimp only
    rw [ih ⟨w1, acc.trace ++ tr, acc.errs ++ es,
          acc.relaysRemoved + nr, acc.agentsRemoved + na⟩,
        ih ⟨w1, [] ++ tr, [] ++ es, 0 + nr, 0 + na⟩]
    simp [List.append_assoc, Nat.add_assoc]

theorem relayPhase_append {W : Type} (B : BackendOps W) (relayTTL agentTTL nowT : Int) :
    ∀ (l1 l2 : List Relay) (acc : PassAcc W),
      relayPhase B relayTTL agentTTL nowT acc (l1 ++ l2)
        = relayPhase B relayTTL agentTTL nowT
            (relayPhase B relayTTL agentTTL nowT acc l1) l2 := by
  intro l1
  induction l1 with
  | nil => intro l2 acc; rfl
  | cons relay rest ih =>
    intro l2 acc
    rw [List.cons_append, relayPhase, relayPhase]
    rcases hs : relayStep B relayTTL agentTTL nowT acc.w relay with ⟨w1, tr, es, nr, na⟩
    dsimp only
    exact ih l2 _

theorem relayPhase_removeRelay_mem {W : Type} (B : BackendOps W)
    (relayTTL agentTTL nowT : Int) :
    ∀ (rs : List Relay) (w : W) (rid : String),
      Call.removeRelay rid ∈ (relayPhase B relayTTL agentTTL nowT ⟨w, [], [], 0, 0⟩ rs).trace
        → ∃ relay ∈ rs, rid = relay.ID := by
  intro rs
  induction rs with
  | nil => intro w rid h; simp [relayPhase] at h
  | cons relay rest ih =>
    intro w rid h
    rw [relayPhase] at h
    rcases hs : relayStep B relayTTL agentTTL nowT w relay with ⟨w1, tr, es, nr, na⟩
    rw [hs] at h
    try dsimp only at h
    rw [relayPhase_shift] at h
    try dsimp only at h
    simp only [List.nil_append, List.mem_append] at h
    rcases h with h | h
    · have h2 := relayStep_calls B relayTTL agentTTL nowT w relay (Call.removeRelay rid)
        (by rw [hs]; exact h)
      rcases h2 with h2 | h2 | h2 | h2 | h2 | h2
      · exact absurd h2 (by simp)
      · exact absurd h2 (by simp)
      · exact absurd h2 (by simp)
      · rcases h2 with ⟨aid, h2⟩; exact absurd h2 (by simp)
      · rcases h2 with ⟨ids, h2⟩; exact absurd h2 (by simp)
      · have : rid = relay.ID := by
          injection h2
        exact ⟨relay, List.mem_cons_self _ _, this⟩
    · rcases ih w1 rid h with ⟨relay2, hmem, hid⟩
      exact ⟨relay2, List.mem_cons_of_mem _ hmem, hid⟩

theorem leftoverSweep_trace {W : Type} (B : BackendOps W) (agentTTL nowT : Int)
    (acc : PassAcc W) :
    ∃ rest, (leftoverSweep B agentTTL nowT acc).trace
        = acc.trace ++ Call.listAgents :: rest
      ∧ ∀ c ∈ rest, c = Call.listAgents ∨ ∃ ids, c = Call.removeAgents ids := by
  rw [leftoverSweep]
  split
  next w1 e heq => exact ⟨[], rfl, by simp⟩
  next w1 agents heq =>
    dsimp only
    split
    next he => exact ⟨[], rfl, by simp⟩
    next he =>
      split
      next w3 tr2 e heq2 =>
        refine ⟨tr2, rfl, ?_⟩
        intro c hc
        exact Or.inl (filterStillStaleAgents_calls B agentTTL _ _ _ c
          (by rw [heq2]; exact hc))
      next w3 tr2 filtered heq2 =>
        have htr2 : ∀ c ∈ tr2, c = Call.listAgents := by
          intro c hc
          exact filterStillStaleAgents_calls B agentTTL _ _ _ c
            (by rw [heq2]; exact hc)
        split
        next hfe =>
          refine ⟨tr2, rfl, ?_⟩
          intro c hc
          exact Or.inl (htr2 c hc)
        next hfe =>
          split
          next w4 e heq3 =>
            refine ⟨tr2 ++ [Call.removeAgents filtered], by simp, ?_⟩
            intro c hc
            rcases List.mem_append.mp hc with hc | hc
            · exact Or.inl (htr2 c hc)
            · simp only [List.mem_singleton] at hc
              exact Or.inr ⟨filtered, hc⟩
          next w4 heq3 =>
            refine ⟨tr2 ++ [Call.removeAgents filtered], by simp, ?_⟩
            intro c hc
            rcases List.mem_append.mp hc with hc | hc
            · exact Or.inl (htr2 c hc)
            · simp only [List.mem_singleton] at hc
              exact Or.inr ⟨filtered, hc⟩

theorem filterPlaced_keep_sound {W : Type} (B : BackendOps W) (w : W) (relayID : String)
    (ids : List String) :
    ∀ aid ∈ (filterAgentsStillPlacedOnRelay B w relayID ids).2.2.1,
      aid ∈ ids ∧ ∃ wa wb p, B.getAgentPlacement wa aid = (wb, Except.ok p)
        ∧ p.RelayID = relayID := by
  intro aid h
  rw [filterAgentsStillPlacedOnRelay] at h
  by_cases he : ids.isEmpty
  · simp [he] at h
  · rw [if_neg he] at h
    exact placedLoop_keep_sound B relayID ids w aid h

theorem runTTLCleanup_structure {W : Type} (B : BackendOps W)
    (relayTTL agentTTL nowT : Int) (w0 w1 : W) (relays : List Relay)
    (hsnap : B.listRelays w0 = (w1, Except.ok relays)) :
    runTTLCleanup B relayTTL agentTTL false w0 nowT
      = leftoverSweep B agentTTL nowT
          (relayPhase B relayTTL agentTTL nowT ⟨w1, [Call.listRelays], [], 0, 0⟩ relays) := by
  rw [runTTLCleanup]
  simp only [Bool.false_eq_true, if_false, hsnap]

/-- C5: in one cleanup pass, a relay R stale at the snapshot and
confirmed stale at the re-read has its agents listed, filtered to those
whose placement RelayID still equals R, removed via RemoveAgents (when
the filtered set is nonempty), and only after that RemoveRelay(R) is
issued; the leftover agent pass over ListAgents comes after the whole
relay phase. -/
theorem ttl_stale_relay_cascade_order {W : Type} (B : BackendOps W)
    (relayTTL agentTTL nowT t1 : Int) (w0 w1 w2 w3 w4 w5 : W)
    (relays pre post : List Relay) (R R2 : Relay) (rs2 : List Relay)
    (agentsR : List Agent) (trG : List Call) (F : List String)
    (hsplit : relays = pre ++ R :: post)
    (hsnap : B.listRelays w0 = (w1, Except.ok relays))
    (hstale : relayTTL ≤ nowT - R.LastSeen)
    (hnow : B.now (relayPhase B relayTTL agentTTL nowT
        ⟨w1, [Call.listRelays], [], 0, 0⟩ pre).w = (w2, t1))
    (hreread : B.listRelays w2 = (w3, Except.ok rs2))
    (hfind : rs2.find? (fun relay => relay.ID == R.ID) = some R2)
    (hconfirm : relayTTL ≤ t1 - R2.LastSeen)
    (hlra : B.listRelayAgents w3 R.ID = (w4, Except.ok agentsR))
    (hfilter : filterAgentsStillPlacedOnRelay B w4 R.ID (agentsR.map Agent.ID)
        = (w5, trG, F, [])) :
    (relayStep B relayTTL agentTTL nowT
        (relayPhase B relayTTL agentTTL nowT ⟨w1, [Call.listRelays], [], 0, 0⟩ pre).w R).2.1
      = [Call.listRelays, Call.listRelayAgents R.ID] ++ trG
          ++ (if F.isEmpty then [] else [Call.removeAgents F]) ++ [Call.removeRelay R.ID]
    ∧ (∀ aid ∈ F, aid ∈ agentsR.map Agent.ID
        ∧ ∃ wa wb p, B.getAgentPlacement wa aid = (wb, Except.ok p) ∧ p.RelayID = R.ID)
    ∧ ∃ trPost rest,
        (runTTLCleanup B relayTTL agentTTL false w0 nowT).trace
          = (relayPhase B relayTTL agentTTL nowT
              ⟨w1, [Call.listRelays], [], 0, 0⟩ pre).trace
            ++ ([Call.listRelays, Call.listRelayAgents R.ID] ++ trG
                ++ (if F.isEmpty then [] else [Call.removeAgents F])
                ++ [Call.removeRelay R.ID])
            ++ trPost ++ Call.listAgents :: rest := by
  have hstill : isRelayStillStale B relayTTL w2 R.ID t1
      = (w3, [Call.listRelays], Except.ok true) := by
    rw [isRelayStillStale]
    simp only [hreread, hfind]
    simp [hconfirm]
  have hrra : ∃ wx cnt es2, removeRelayAgents B w3 R.ID
      = (wx, [Call.listRelayAgents R.ID] ++ trG
          ++ (if F.isEmpty then [] else [Call.removeAgents F]), cnt, es2) := by
    rw [removeRelayAgents]
    simp only [hlra]
    by_cases hae : (agentsR.map Agent.ID).isEmpty
    · rw [filterAgentsStillPlacedOnRelay, if_pos hae] at hfilter
      have htrG : trG = [] := by
        have := congrArg (fun x => x.2.1) hfilter
        simpa using this.symm
      have hF : F = [] := by
        have := congrArg (fun x => x.2.2.1) hfilter
        simpa using this.symm
      subst htrG
      subst hF
      exact ⟨w4, 0, [], by simp [hae]⟩
    · rw [if_neg hae]
      simp only [hfilter]
      have hes : (([] : List Err).isEmpty) = true := rfl
      simp only [hes]
      by_cases hF : F.isEmpty
      · refine ⟨w5, 0, [], ?_⟩
        simp [hF]
      · rw [Bool.not_true]
        simp only [Bool.false_eq_true, if_false, hF]
        rcases hra : B.removeAgents w5 F with ⟨w6, rres⟩
        cases rres with
        | some e => exact ⟨w6, 0, [e], by simp⟩
        | none => exact ⟨w6, F.length, [], by simp⟩
  obtain ⟨wx, cnt, es2, hrra⟩ := hrra
  have hstep : ∃ w6 es3 nr na, relayStep B relayTTL agentTTL nowT
      (relayPhase B relayTTL agentTTL nowT ⟨w1, [Call.listRelays], [], 0, 0⟩ pre).w R
      = (w6, [Call.listRelays, Call.listRelayAgents R.ID] ++ trG
          ++ (if F.isEmpty then [] else [Call.removeAgents F])
          ++ [Call.removeRelay R.ID], es3, nr, na) := by
    rw [relayStep, if_pos hstale]
    simp only [hnow]
    simp only [hstill]
    simp only [hrra]
    rcases hrr : B.removeRelay wx R.ID with ⟨w6, rres⟩
    cases rres with
    | some e => exact ⟨w6, es2 ++ [e], 0, cnt, by simp⟩
    | none => exact ⟨w6, es2, 1, cnt, by simp⟩
  obtain ⟨w6, es3, nr, na, hstep⟩ := hstep
  refine ⟨by rw [hstep], ?_, ?_⟩
  · intro aid haid
    have h2 := filterPlaced_keep_sound B w4 R.ID (agentsR.map Agent.ID) aid
      (by rw [hfilter]; exact haid)
    exact h2
  · obtain ⟨rest, hres, _⟩ := leftoverSweep_trace B agentTTL nowT
      (relayPhase B relayTTL agentTTL nowT ⟨w1, [Call.listRelays], [], 0, 0⟩ relays)
    refine ⟨(relayPhase B relayTTL agentTTL nowT ⟨w6, [], [], 0, 0⟩ post).trace, rest, ?_⟩
    rw [runTTLCleanup_structure B relayTTL agentTTL nowT w0 w1 relays hsnap]
    rw [hres]
    rw [hsplit, relayPhase_append, relayPhase]
    simp only [hstep]
    rw [relayPhase_shift]
    try simp [List.append_assoc]

/-- The fresh relay of the sweep scenario. -/
def freshRelay : Relay :=
  { ID := "relay-fresh", Address := "", GRPCPort := 0, LastSeen := 40 }

/-- The stale relay of the sweep scenario. -/
def staleRelay : Relay :=
  { ID := "relay-stale", Address := "", GRPCPort := 0, LastSeen := 0 }

/-- C5 witness: the cascade ordering applied to the concrete sweep
scenario of the tests (one fresh relay, one stale relay with one placed
agent, one leftover stale agent). -/
theorem ttl_stale_relay_cascade_order_witness :
    (relayStep (memOracle noInterfere clock45) 30 30 45
        (relayPhase (memOracle noInterfere clock45) 30 30 45
          ⟨((sweepState, 1) : Memory.Backend × Nat), [Call.listRelays], [], 0, 0⟩
          [freshRelay]).w staleRelay).2.1
      = [Call.listRelays, Call.listRelayAgents staleRelay.ID]
          ++ [Call.getAgentPlacement "agent-under-stale-relay"]
          ++ (if (["agent-under-stale-relay"] : List String).isEmpty then []
              else [Call.removeAgents ["agent-under-stale-relay"]])
          ++ [Call.removeRelay staleRelay.ID]
    ∧ (∀ aid ∈ (["agent-under-stale-relay"] : List String),
        aid ∈ ([{ ID := "agent-under-stale-relay", LastHeartbeat := 43 }] : List Agent).map
            Agent.ID
        ∧ ∃ wa wb p, (memOracle noInterfere clock45).getAgentPlacement wa aid
            = (wb, Except.ok p) ∧ p.RelayID = staleRelay.ID)
    ∧ ∃ trPost rest,
        (runTTLCleanup (memOracle noInterfere clock45) 30 30 false (sweepState, 0) 45).trace
          = (relayPhase (memOracle noInterfere clock45) 30 30 45
              ⟨((sweepState, 1) : Memory.Backend × Nat), [Call.listRelays], [], 0, 0⟩
              [freshRelay]).trace
            ++ ([Call.listRelays, Call.listRelayAgents staleRelay.ID]
                ++ [Call.getAgentPlacement "agent-under-stale-relay"]
                ++ (if (["agent-under-stale-relay"] : List String).isEmpty then []
                    else [Call.removeAgents ["agent-under-stale-relay"]])
                ++ [Call.removeRelay staleRelay.ID])
            ++ trPost ++ Call.listAgents :: rest := by
  have h := ttl_stale_relay_cascade_order (memOracle noInterfere clock45)
    30 30 45 45 (sweepState, 0) (sweepState, 1) (sweepState, 3) (sweepState, 4)
    (sweepState, 5) (sweepState, 6)
    [freshRelay, staleRelay] [freshRelay] [] staleRelay staleRelay
    [freshRelay, staleRelay]
    [{ ID := "agent-under-stale-relay", LastHeartbeat := 43 }]
    [Call.getAgentPlacement "agent-under-stale-relay"] ["agent-under-stale-relay"]
    rfl rfl (by decide) rfl rfl rfl (by decide) rfl rfl
  exact h

/-- The one-relay one-agent backend state for the refresh race: relay r1
stale at the snapshot, its agent a1 with a stale heartbeat of its own. -/
def raceState : Memory.Backend :=
  { relays := [("r1", { ID := "r1", Address := "", GRPCPort := 0, LastSeen := 0 })],
    agents := [("a1", { ID := "a1", LastHeartbeat := 0 })],
    placements := [("a1", { AgentID := "a1", RelayID := "r1", UpdatedAt := 0 })] }

/-- Concurrent writer refreshing relay r1 exactly at the stale-confirm
re-read (backend call index 2: snapshot, now, re-read). -/
def refreshAtConfirm : Nat → Memory.Backend → Memory.Backend :=
  fun n s => if n = 2 then (Memory.HeartbeatRelay false s "r1" 44).1 else s

/-- C6 counterexample: relay r1 is stale at the snapshot and refreshed
at the confirm re-read, so the pass skips it (no RemoveRelay r1), yet
the pass still issues a RemoveAgents call containing r1's agent a1,
because a1's own heartbeat is past the agent TTL and the leftover pass
removes it. -/
theorem ttl_refreshed_relay_agent_removed :
    (mget raceState.placements "a1").map AgentPlacement.RelayID = some "r1"
    ∧ Call.removeRelay "r1"
        ∉ (runTTLCleanup (memOracle refreshAtConfirm clock45) 30 30 false
            (raceState, 0) 45).trace
    ∧ Call.removeAgents ["a1"]
        ∈ (runTTLCleanup (memOracle refreshAtConfirm clock45) 30 30 false
            (raceState, 0) 45).trace := by
  decide

theorem relayPhase_w {W : Type} (B : BackendOps W) (relayTTL agentTTL nowT : Int)
    (rs : List Relay) (acc : PassAcc W) :
    (relayPhase B relayTTL agentTTL nowT acc rs).w
      = (relayPhase B relayTTL agentTTL nowT ⟨acc.w, [], [], 0, 0⟩ rs).w := by
  rw [relayPhase_shift B relayTTL agentTTL nowT rs acc]

/-- C6 amended: when a relay R, stale at the snapshot, is refreshed by
the time of the stale-confirm re-read, its processing issues only the
confirm ListRelays (no RemoveRelay, no RemoveAgents and no error from
the stale-relay cascade), and no RemoveRelay(R) occurs anywhere in the
pass; R's agents remain subject to the agent-TTL passes when their own
heartbeats are stale. -/
theorem ttl_refreshed_relay_skip {W : Type} (B : BackendOps W)
    (relayTTL agentTTL nowT t1 : Int) (w0 w1 w2 w3 : W)
    (relays pre post : List Relay) (R R2 : Relay) (rs2 : List Relay)
    (hsplit : relays = pre ++ R :: post)
    (hsnap : B.listRelays w0 = (w1, Except.ok relays))
    (hstale : relayTTL ≤ nowT - R.LastSeen)
    (hnow : B.now (relayPhase B relayTTL agentTTL nowT
        ⟨w1, [Call.listRelays], [], 0, 0⟩ pre).w = (w2, t1))
    (hreread : B.listRelays w2 = (w3, Except.ok rs2))
    (hfind : rs2.find? (fun relay => relay.ID == R.ID) = some R2)
    (hfresh : ¬ relayTTL ≤ t1 - R2.LastSeen)
    (hnd : (relays.map Relay.ID).Nodup) :
    relayStep B relayTTL agentTTL nowT
        (relayPhase B relayTTL agentTTL nowT ⟨w1, [Call.listRelays], [], 0, 0⟩ pre).w R
      = (w3, [Call.listRelays], [], 0, 0)
    ∧ Call.removeRelay R.ID ∉ (runTTLCleanup B relayTTL agentTTL false w0 nowT).trace := by
  have hstill : isRelayStillStale B relayTTL w2 R.ID t1
      = (w3, [Call.listRelays], Except.ok false) := by
    rw [isRelayStillStale]
    simp only [hreread, hfind]
    simp [hfresh]
  have hstep := relayStep_skip B relayTTL agentTTL nowT t1 _ w2 w3 R
    [Call.listRelays] hstale hnow hstill
  refine ⟨hstep, ?_⟩
  have hstep0 : relayStep B relayTTL agentTTL nowT
      (relayPhase B relayTTL agentTTL nowT ⟨w1, [], [], 0, 0⟩ pre).w R
      = (w3, [Call.listRelays], [], 0, 0) := by
    have hw := relayPhase_w B relayTTL agentTTL nowT pre
      ⟨w1, [Call.listRelays], [], 0, 0⟩
    rw [← hw]
    exact hstep
  have hpre : R.ID ∉ pre.map Relay.ID := by
    rw [hsplit, List.map_append, List.map_cons] at hnd
    rcases List.nodup_append.mp hnd with ⟨_, _, hdisj⟩
    intro hmem
    exact hdisj hmem (List.mem_cons_self _ _)
  have hpost : R.ID ∉ post.map Relay.ID := by
    rw [hsplit, List.map_append, List.map_cons] at hnd
    rcases List.nodup_append.mp hnd with ⟨_, h2, _⟩
    exact (List.nodup_cons.mp h2).1
  obtain ⟨rest, hres, hrest⟩ := leftoverSweep_trace B agentTTL nowT
    (relayPhase B relayTTL agentTTL nowT ⟨w1, [Call.listRelays], [], 0, 0⟩ relays)
  have htr : (runTTLCleanup B relayTTL agentTTL false w0 nowT).trace
      = [Call.listRelays]
        ++ (relayPhase B relayTTL agentTTL nowT ⟨w1, [], [], 0, 0⟩ pre).trace
        ++ [Call.listRelays]
        ++ (relayPhase B relayTTL agentTTL nowT ⟨w3, [], [], 0, 0⟩ post).trace
        ++ Call.listAgents :: rest := by
    rw [runTTLCleanup_structure B relayTTL agentTTL nowT w0 w1 relays hsnap]
    rw [hres, hsplit, relayPhase_append, relayPhase]
    rw [relayPhase_shift B relayTTL agentTTL nowT pre
        ⟨w1, [Call.listRelays], [], 0, 0⟩]
    simp only [hstep0]
    rw [relayPhase_shift B relayTTL agentTTL nowT post]
    try simp [List.append_assoc]
  intro hmem
  rw [htr] at hmem
  simp only [List.mem_append, List.mem_cons, List.not_mem_nil, or_false] at hmem
  rcases hmem with (((hmem | hmem) | hmem) | hmem) | hmem | hmem
  · exact Call.noConfusion hmem
  · rcases relayPhase_removeRelay_mem B relayTTL agentTTL nowT pre w1 R.ID hmem
      with ⟨relay, hrel, hid⟩
    exact hpre (hid ▸ List.mem_map_of_mem Relay.ID hrel)
  · exact Call.noConfusion hmem
  · rcases relayPhase_removeRelay_mem B relayTTL agentTTL nowT post w3 R.ID hmem
      with ⟨relay, hrel, hid⟩
    exact hpost (hid ▸ List.mem_map_of_mem Relay.ID hrel)
  · exact Call.noConfusion hmem
  · rcases hrest _ hmem with h2 | ⟨ids, h2⟩
    · exact Call.noConfusion h2
    · exact Call.noConfusion h2

/-- C6 amended witness: the skip applied to the refresh race scenario,
with relay r1 refreshed to LastSeen 44 by the confirm re-read. -/
theorem ttl_refreshed_relay_skip_witness :
    relayStep (memOracle refreshAtConfirm clock45) 30 30 45
        (relayPhase (memOracle refreshAtConfirm clock45) 30 30 45
          ⟨((raceState, 1) : Memory.Backend × Nat), [Call.listRelays], [], 0, 0⟩ []).w
        { ID := "r1", Address := "", GRPCPort := 0, LastSeen := 0 }
      = (((Memory.HeartbeatRelay false raceState "r1" 44).1, 3),
          [Call.listRelays], [], 0, 0)
    ∧ Call.removeRelay
        ({ ID := "r1", Address := "", GRPCPort := 0, LastSeen := 0 } : Relay).ID
      ∉ (runTTLCleanup (memOracle refreshAtConfirm clock45) 30 30 false
          (raceState, 0) 45).trace :=
  ttl_refreshed_relay_skip (memOracle refreshAtConfirm clock45) 30 30 45 45
    (raceState, 0) (raceState, 1) (raceState, 2)
    ((Memory.HeartbeatRelay false raceState "r1" 44).1, 3)
    [{ ID := "r1", Address := "", GRPCPort := 0, LastSeen := 0 }] [] []
    { ID := "r1", Address := "", GRPCPort := 0, LastSeen := 0 }
    { ID := "r1", Address := "", GRPCPort := 0, LastSeen := 44 }
    [{ ID := "r1", Address := "", GRPCPort := 0, LastSeen := 44 }]
    rfl rfl (by decide) rfl rfl rfl (by decide) (by decide)

/-- C10: when the stale-confirm re-read no longer contains relay R (for
example because it was removed concurrently between snapshot and
confirm), isRelayStillStale reports R as not stale rather than failing
NotFound, and R's processing issues no RemoveAgents or RemoveRelay call
and records no error. -/
theorem ttl_vanished_relay_skip {W : Type} (B : BackendOps W)
    (relayTTL agentTTL nowT t1 : Int) (w0 w1 w2 w3 : W)
    (relays pre post : List Relay) (R : Relay) (rs2 : List Relay)
    (_hsplit : relays = pre ++ R :: post)
    (_hsnap : B.listRelays w0 = (w1, Except.ok relays))
    (hstale : relayTTL ≤ nowT - R.LastSeen)
    (hnow : B.now (relayPhase B relayTTL agentTTL nowT
        ⟨w1, [Call.listRelays], [], 0, 0⟩ pre).w = (w2, t1))
    (hreread : B.listRelays w2 = (w3, Except.ok rs2))
    (hgone : ∀ relay ∈ rs2, relay.ID ≠ R.ID) :
    isRelayStillStale B relayTTL w2 R.ID t1 = (w3, [Call.listRelays], Except.ok false)
    ∧ relayStep B relayTTL agentTTL nowT
        (relayPhase B relayTTL agentTTL nowT ⟨w1, [Call.listRelays], [], 0, 0⟩ pre).w R
      = (w3, [Call.listRelays], [], 0, 0) := by
  have hfind : rs2.find? (fun relay => relay.ID == R.ID) = none := by
    rw [List.find?_eq_none]
    intro relay hrel
    simpa using hgone relay hrel
  have hstill : isRelayStillStale B relayTTL w2 R.ID t1
      = (w3, [Call.listRelays], Except.ok false) := by
    rw [isRelayStillStale]
    simp only [hreread, hfind]
  exact ⟨hstill, relayStep_skip B relayTTL agentTTL nowT t1 _ w2 w3 R
    [Call.listRelays] hstale hnow hstill⟩

/-- The one-stale-relay state for the concurrent-removal scenario. -/
def goneState : Memory.Backend :=
  { relays := [("r1", { ID := "r1", Address := "", GRPCPort := 0, LastSeen := 0 })],
    agents := [], placements := [] }

/-- Concurrent writer removing relay r1 exactly at the stale-confirm
re-read. -/
def removeAtConfirm : Nat → Memory.Backend → Memory.Backend :=
  fun n s => if n = 2 then (Memory.RemoveRelay false s "r1").1 else s

/-- C10 witness: the vanished-relay skip at the concurrent-removal
scenario. -/
theorem ttl_vanished_relay_skip_witness :
    isRelayStillStale (memOracle removeAtConfirm clock45) 30 (goneState, 2)
        ({ ID := "r1", Address := "", GRPCPort := 0, LastSeen := 0 } : Relay).ID 45
      = (((⟨[], [], []⟩ : Memory.Backend), 3), [Call.listRelays], Except.ok false)
    ∧ relayStep (memOracle removeAtConfirm clock45) 30 30 45
        (relayPhase (memOracle removeAtConfirm clock45) 30 30 45
          ⟨((goneState, 1) : Memory.Backend × Nat), [Call.listRelays], [], 0, 0⟩ []).w
        { ID := "r1", Address := "", GRPCPort := 0, LastSeen := 0 }
      = (((⟨[], [], []⟩ : Memory.Backend), 3), [Call.listRelays], [], 0, 0) :=
  ttl_vanished_relay_skip (memOracle removeAtConfirm clock45) 30 30 45 45
    (goneState, 0) (goneState, 1) (goneState, 2) ((⟨[], [], []⟩ : Memory.Backend), 3)
    [{ ID := "r1", Address := "", GRPCPort := 0, LastSeen := 0 }] [] []
    { ID := "r1", Address := "", GRPCPort := 0, LastSeen := 0 } []
    rfl rfl (by decide) rfl rfl (by decide)
